import Mathlib

/-!
Verification of the checkers online-learning service (move codec, reward
engine, experience store, curriculum/exploration controller, dual-model
coordinator, request handlers) against its specification.

The Python modules are shallowly embedded: Python ints become `Int`/`Nat`,
floats become `ℚ` (arithmetic on the literals involved here is exact),
possibly-raising code returns `Option` (`none` = an uncaught exception),
SQLite tables become lists of records in rowid order, and the PyTorch
network — explicitly out of scope of the spec — is a function parameter.
-/

namespace Checkers

/-! ## Move codec — `model/encoder.py` -/

/-- Python `list.index` semantics: index of the first occurrence, `none`
standing for the `ValueError` branch. -/
def list_index {α : Type} [DecidableEq α] (l : List α) (x : α) : Option ℕ :=
  match l with
  | [] => none
  | a :: rest => if a = x then some 0 else (list_index rest x).map (· + 1)

/-- The 50 playable squares of the 10x10 board in row-major order:
`[(row, col) for row in range(10) for col in range(10) if (row+col) % 2 == 1]`. -/
def playable_squares : List (ℤ × ℤ) :=
  (List.range 10).flatMap fun row =>
    (List.range 10).filterMap fun col =>
      if (row + col) % 2 = 1 then some ((row : ℤ), (col : ℤ)) else none

/-- The 8 direction offsets of `encoder.py`: 4 single-step moves and 4
two-step capture moves. -/
def directions8 : List (ℤ × ℤ) :=
  [(-1, -1), (-1, 1), (1, -1), (1, 1), (-2, -2), (-2, 2), (2, -2), (2, 2)]

/-- Python `d // abs(d) if d != 0 else 0` (floor division by the absolute
value, i.e. the sign). -/
def pySign (d : ℤ) : ℤ :=
  if d = 0 then 0 else Int.fdiv d |d|

/-- Direction lookup of `encode_move`: try the raw displacement in the
offset table, else retry with the displacement normalized to a unit step. -/
def direction_index (dr dc : ℤ) : Option ℕ :=
  match list_index directions8 (dr, dc) with
  | some i => some i
  | none => list_index directions8 (pySign dr, pySign dc)

/-- `encode_move(from_row, from_col, to_row, to_col)` for the default
10x10 board: `from_square_idx * 8 + direction_idx`, `-1` being the
sentinel failure value. -/
def encode_move (from_row from_col to_row to_col : ℤ) : ℤ :=
  match list_index playable_squares (from_row, from_col) with
  | none => -1
  | some from_square_idx =>
    match direction_index (to_row - from_row) (to_col - from_col) with
    | none => -1
    | some direction_idx => (from_square_idx : ℤ) * 8 + (direction_idx : ℤ)

/-- `decode_move(move_index)` for the default 10x10 board (nonnegative
indices, which is what every caller passes). -/
def decode_move (move_index : ℕ) : Option (ℤ × ℤ × ℤ × ℤ) :=
  let from_square_idx := move_index / 8
  let direction_idx := move_index % 8
  if from_square_idx ≥ playable_squares.length then none
  else
    match playable_squares.get? from_square_idx, directions8.get? direction_idx with
    | some (from_row, from_col), some (dr, dc) =>
      let to_row := from_row + dr
      let to_col := from_col + dc
      if 0 ≤ to_row ∧ to_row < 10 ∧ 0 ≤ to_col ∧ to_col < 10 then
        some (from_row, from_col, to_row, to_col)
      else none
    | _, _ => none

/-- Index of a square in the playable-square table (used to state claims
about the encoding formula). -/
def playable_index (row col : ℤ) : Option ℕ :=
  list_index playable_squares (row, col)

/-! ## Reward engine — `api/ai.py`

Boards arrive as arbitrary JSON values. The embedding models exactly the
shape distinctions the Python code observes: a cell is `None`, a dict
(truthiness, `color` compared against "red"/"black", truthiness of
`king`), or some other value; a row is a list or a non-list value with no
`len()` (e.g. an int); a board is a list of rows or any non-list value.
Functions that can raise return `Option` (`none` = uncaught exception). -/

inductive CColor
  | red
  | black
  | other
deriving DecidableEq

inductive Cell
  | cnull : Cell
  | cdict (truthy : Bool) (color : CColor) (king : Bool) : Cell
  | cother (truthy : Bool) : Cell
deriving DecidableEq

inductive RowV
  | rlist (cells : List Cell) : RowV
  | rother : RowV
deriving DecidableEq

inductive BoardV
  | blist (rows : List RowV) : BoardV
  | bother : BoardV
deriving DecidableEq

def Cell.truthy : Cell → Bool
  | .cnull => false
  | .cdict t _ _ => t
  | .cother t => t

def Cell.isDict : Cell → Bool
  | .cdict _ _ _ => true
  | _ => false

def Cell.colorIs : Cell → CColor → Bool
  | .cdict _ c _, col => c == col
  | _, _ => false

def Cell.kingFlag : Cell → Bool
  | .cdict _ _ k => k
  | _ => false

def Cell.isNull : Cell → Bool
  | .cnull => true
  | _ => false

/-- The recurring guard `board[r][c] and isinstance(board[r][c], dict) and
board[r][c].get("color") == color`. -/
def cellMatches (c : Cell) (col : CColor) : Bool :=
  c.truthy && c.isDict && c.colorIs col

/-- Python `len(row)`: `none` is the `TypeError` on a row with no length. -/
def RowV.pyLen : RowV → Option ℕ
  | .rlist cells => some cells.length
  | .rother => none

/-- Python `row[i]` for `0 ≤ i`: `none` is an `IndexError` (short row) or
`TypeError` (non-subscriptable row). -/
def RowV.pyGet : RowV → ℕ → Option Cell
  | .rlist cells, i => cells.get? i
  | .rother, _ => none

structure PieceCounts where
  total : ℤ
  kings_total : ℤ
  red_total : ℤ
  red_kings : ℤ
  black_total : ℤ
  black_kings : ℤ
deriving DecidableEq

/-- One cell of `_count_pieces`: `None` skipped, a non-dict value counted
as an occupied-but-unidentified piece, dicts classified by color/king. -/
def countCell (acc : PieceCounts) (cell : Cell) : PieceCounts :=
  match cell with
  | .cnull => acc
  | .cother _ => { acc with total := acc.total + 1 }
  | .cdict _ color king =>
    let acc := { acc with total := acc.total + 1 }
    let acc := if king then { acc with kings_total := acc.kings_total + 1 } else acc
    match color with
    | .red =>
      { acc with red_total := acc.red_total + 1,
                 red_kings := if king then acc.red_kings + 1 else acc.red_kings }
    | .black =>
      { acc with black_total := acc.black_total + 1,
                 black_kings := if king then acc.black_kings + 1 else acc.black_kings }
    | .other => acc

/-- `_count_pieces`: best-effort piece census (total function — it guards
every access and never raises). -/
def count_pieces (board : BoardV) : PieceCounts :=
  match board with
  | .bother => ⟨0, 0, 0, 0, 0, 0⟩
  | .blist rows =>
    rows.foldl
      (fun acc r =>
        match r with
        | .rother => acc
        | .rlist cells => cells.foldl countCell acc)
      ⟨0, 0, 0, 0, 0, 0⟩

/-- The local `count_gaps` of `_evaluate_gap_closure`. The column bound is
`len(board[0])` evaluated with no isinstance guard, and `board[row+1]` is
indexed under bounds computed from row 0 only — either can raise. -/
def count_gaps (board : BoardV) (color : CColor) : Option ℤ :=
  match board with
  | .bother => some 0
  | .blist rows =>
    (List.range (rows.length - 1)).foldlM
      (fun gaps row => do
        let ncols ← (rows.getD 0 .rother).pyLen
        match rows.getD row .rother with
        | .rother => pure gaps
        | .rlist cells =>
          (List.range ncols).foldlM
            (fun gaps col => do
              let cell ← cells.get? col
              if cellMatches cell color then do
                let gaps ←
                  if row + 1 < rows.length ∧ col + 1 < ncols then do
                    let c2 ← (rows.getD (row + 1) .rother).pyGet (col + 1)
                    pure (if c2.isNull then gaps + 1 else gaps)
                  else pure gaps
                if row + 1 < rows.length ∧ 1 ≤ col then do
                  let c3 ← (rows.getD (row + 1) .rother).pyGet (col - 1)
                  pure (if c3.isNull then gaps + 1 else gaps)
                else pure gaps
              else pure gaps)
            gaps)
      (0 : ℤ)

/-- `_evaluate_gap_closure`: positive when gaps decreased. -/
def evaluate_gap_closure (board_before board_after : BoardV) (color : CColor) :
    Option ℤ := do
  let gaps_before ← count_gaps board_before color
  let gaps_after ← count_gaps board_after color
  pure (gaps_before - gaps_after)

/-- The 4-diagonal neighbor scan duplicated in `_evaluate_cohesion`,
`_count_supported_pieces` and `_count_isolated_pieces`, with `break` on
the first same-color neighbor. -/
def has_same_color_neighbor (rows : List RowV) (ncols : ℕ) (row col : ℕ)
    (color : CColor) : Option Bool :=
  [((-1 : ℤ), (-1 : ℤ)), (-1, 1), (1, -1), (1, 1)].foldlM
    (fun found d => do
      if found then pure true
      else
        let nr : ℤ := (row : ℤ) + d.1
        let nc : ℤ := (col : ℤ) + d.2
        if 0 ≤ nr ∧ nr < (rows.length : ℤ) ∧ 0 ≤ nc ∧ nc < (ncols : ℤ) then
          match rows.getD nr.toNat .rother with
          | .rother => pure found
          | .rlist cells => do
            let c ← cells.get? nc.toNat
            if c.truthy then pure (c.isDict && c.colorIs color)
            else pure found
        else pure found)
    false

/-- `_evaluate_cohesion`: fraction of own pieces with an adjacent own
piece (`connected_count / max(total_pieces, 1)`). -/
def evaluate_cohesion (board : BoardV) (color : CColor) : Option ℚ :=
  match board with
  | .bother => some 0
  | .blist rows => do
    let counts ← (List.range rows.length).foldlM
      (fun (acc : ℤ × ℤ) row => do
        let ncols ← (rows.getD 0 .rother).pyLen
        match rows.getD row .rother with
        | .rother => pure acc
        | .rlist cells =>
          (List.range ncols).foldlM
            (fun (acc : ℤ × ℤ) col => do
              let cell ← cells.get? col
              if cellMatches cell color then do
                let hasn ← has_same_color_neighbor rows ncols row col color
                pure (if hasn then (acc.1 + 1, acc.2 + 1) else (acc.1, acc.2 + 1))
              else pure acc)
            acc)
      ((0, 0) : ℤ × ℤ)
    pure ((counts.1 : ℚ) / ((max counts.2 1 : ℤ) : ℚ))

/-- `_count_supported_pieces`: own pieces with at least one friendly
diagonal neighbor. -/
def count_supported_pieces (board : BoardV) (color : CColor) : Option ℤ :=
  match board with
  | .bother => some 0
  | .blist rows =>
    (List.range rows.length).foldlM
      (fun supported row => do
        let ncols ← (rows.getD 0 .rother).pyLen
        match rows.getD row .rother with
        | .rother => pure supported
        | .rlist cells =>
          (List.range ncols).foldlM
            (fun supported col => do
              let cell ← cells.get? col
              if cellMatches cell color then do
                let hasn ← has_same_color_neighbor rows ncols row col color
                pure (if hasn then supported + 1 else supported)
              else pure supported)
            supported)
      (0 : ℤ)

/-- The per-king scan of `_count_threatened_kings`: an opposing piece
diagonally adjacent with an empty landing square opposite it. -/
def king_capture_threat (rows : List RowV) (ncols : ℕ) (row col : ℕ)
    (opponent : CColor) : Option Bool :=
  [((-1 : ℤ), (-1 : ℤ)), (-1, 1), (1, -1), (1, 1)].foldlM
    (fun found d => do
      if found then pure true
      else
        let attacker_r : ℤ := (row : ℤ) - d.1
        let attacker_c : ℤ := (col : ℤ) - d.2
        let landing_r : ℤ := (row : ℤ) + d.1
        let landing_c : ℤ := (col : ℤ) + d.2
        if 0 ≤ attacker_r ∧ attacker_r < (rows.length : ℤ) ∧
            0 ≤ attacker_c ∧ attacker_c < (ncols : ℤ) ∧
            0 ≤ landing_r ∧ landing_r < (rows.length : ℤ) ∧
            0 ≤ landing_c ∧ landing_c < (ncols : ℤ) then
          match rows.getD attacker_r.toNat .rother with
          | .rother => pure found
          | .rlist acells => do
            let a ← acells.get? attacker_c.toNat
            if a.truthy then
              if a.isDict && a.colorIs opponent then
                match rows.getD landing_r.toNat .rother with
                | .rother => pure found
                | .rlist lcells => do
                  let l ← lcells.get? landing_c.toNat
                  pure l.isNull
              else pure found
            else pure found
        else pure found)
    false

/-- `_count_threatened_kings`. -/
def count_threatened_kings (board : BoardV) (color : CColor) : Option ℤ :=
  match board with
  | .bother => some 0
  | .blist rows =>
    let opponent := if color = CColor.black then CColor.red else CColor.black
    (List.range rows.length).foldlM
      (fun threatened row => do
        let ncols ← (rows.getD 0 .rother).pyLen
        match rows.getD row .rother with
        | .rother => pure threatened
        | .rlist cells =>
          (List.range ncols).foldlM
            (fun threatened col => do
              let cell ← cells.get? col
              if cellMatches cell color && cell.kingFlag then do
                let thr ← king_capture_threat rows ncols row col opponent
                pure (if thr then threatened + 1 else threatened)
              else pure threatened)
            threatened)
      (0 : ℤ)

/-- `_count_isolated_pieces`: own pieces with no friendly neighbor. -/
def count_isolated_pieces (board : BoardV) (color : CColor) : Option ℤ :=
  match board with
  | .bother => some 0
  | .blist rows =>
    (List.range rows.length).foldlM
      (fun isolated row => do
        let ncols ← (rows.getD 0 .rother).pyLen
        match rows.getD row .rother with
        | .rother => pure isolated
        | .rlist cells =>
          (List.range ncols).foldlM
            (fun isolated col => do
              let cell ← cells.get? col
              if cellMatches cell color then do
                let hasn ← has_same_color_neighbor rows ncols row col color
                pure (if hasn then isolated else isolated + 1)
              else pure isolated)
            isolated)
      (0 : ℤ)

/-- `_violated_back_rank`: fewer than 3 own pieces left on the own back
rank (total function — every access is over the row's own length). -/
def violated_back_rank (board : BoardV) (color : CColor) : Bool :=
  match board with
  | .bother => false
  | .blist rows =>
    if rows.length = 0 then false
    else
      let back_rank := if color = CColor.black then 0 else rows.length - 1
      match rows.getD back_rank .rother with
      | .rother => false
      | .rlist cells =>
        decide ((cells.foldl (fun n c => if cellMatches c color then n + 1 else n) (0 : ℤ)) < 3)

/-- `_count_back_rank_pieces`. -/
def count_back_rank_pieces (board : BoardV) (color : CColor) : ℤ :=
  match board with
  | .bother => 0
  | .blist rows =>
    if rows.length = 0 then 0
    else
      let back_rank := if color = CColor.black then 0 else rows.length - 1
      match rows.getD back_rank .rother with
      | .rother => 0
      | .rlist cells =>
        cells.foldl (fun n c => if cellMatches c color then n + 1 else n) 0

/-- `_estimate_mobility`: count of empty diagonal destination squares
(forward-only for non-kings). -/
def estimate_mobility (board : BoardV) (color : CColor) : Option ℤ :=
  match board with
  | .bother => some 0
  | .blist rows =>
    (List.range rows.length).foldlM
      (fun mobility row => do
        let ncols ← (rows.getD 0 .rother).pyLen
        match rows.getD row .rother with
        | .rother => pure mobility
        | .rlist cells =>
          (List.range ncols).foldlM
            (fun mobility col => do
              let cell ← cells.get? col
              if cellMatches cell color then
                let dirs : List (ℤ × ℤ) :=
                  if cell.kingFlag then [(-1, -1), (-1, 1), (1, -1), (1, 1)]
                  else if color = CColor.black then [(-1, -1), (-1, 1)]
                  else [(1, -1), (1, 1)]
                dirs.foldlM
                  (fun mobility d => do
                    let nr : ℤ := (row : ℤ) + d.1
                    let nc : ℤ := (col : ℤ) + d.2
                    if 0 ≤ nr ∧ nr < (rows.length : ℤ) ∧ 0 ≤ nc ∧ nc < (ncols : ℤ) then
                      match rows.getD nr.toNat .rother with
                      | .rother => pure mobility
                      | .rlist ncells => do
                        let c ← ncells.get? nc.toNat
                        pure (if c.isNull then mobility + 1 else mobility)
                    else pure mobility)
                  mobility
              else pure mobility)
            mobility)
      (0 : ℤ)

inductive Phase
  | opening
  | midgame
  | endgame
deriving DecidableEq

/-- `_determine_phase`. -/
def determine_phase (total_pieces : ℤ) : Phase :=
  if total_pieces ≥ 15 then .opening
  else if total_pieces ≥ 8 then .midgame
  else .endgame

/-- `_count_active_kings`: kings away from edges and corners. -/
def count_active_kings (board : BoardV) (color : CColor) : Option ℤ :=
  match board with
  | .bother => some 0
  | .blist rows =>
    (List.range rows.length).foldlM
      (fun active row => do
        let ncols ← (rows.getD 0 .rother).pyLen
        match rows.getD row .rother with
        | .rother => pure active
        | .rlist cells =>
          (List.range ncols).foldlM
            (fun active col => do
              let cell ← cells.get? col
              if cellMatches cell color && cell.kingFlag then
                pure (if 1 < (row : ℤ) ∧ (row : ℤ) < (rows.length : ℤ) - 2 ∧
                        1 < (col : ℤ) ∧ (col : ℤ) < (ncols : ℤ) - 2
                      then active + 1 else active)
              else pure active)
            active)
      (0 : ℤ)

/-- `np.clip(x, lo, hi)`. -/
def np_clip (x lo hi : ℚ) : ℚ := max lo (min hi x)

/-- A structured action `{from: [r, c], to: [r, c]}` as sent by callers. -/
structure ActV where
  fromSq : ℤ × ℤ
  toSq : ℤ × ℤ
deriving DecidableEq

/-- `calculate_reward(board_before, board_after, action, is_terminal,
winner)`: terminal outcomes short-circuit to +1, -1 or 0 on the winner
string; otherwise the 6-tier shaped sum clipped to [-1, 1], with `none`
propagating any uncaught exception from a sub-metric. -/
def calculate_reward (board_before board_after : BoardV) (action : ActV)
    (is_terminal : Bool) (winner : String) : Option ℚ :=
  if is_terminal then
    if winner = "ai" then some 1
    else if winner = "human" then some (-1)
    else some 0
  else do
    let before_counts := count_pieces board_before
    let after_counts := count_pieces board_after
    let reward : ℚ := 0
    let pieces_captured := before_counts.total - after_counts.total
    let reward :=
      if pieces_captured > 1 then
        reward + 0.2 * (pieces_captured : ℚ) + 0.05 * ((pieces_captured : ℚ) - 1) ^ 2
      else if pieces_captured = 1 then reward + 0.08
      else reward
    let gap_improvement ← evaluate_gap_closure board_before board_after .black
    let reward := reward + 0.03 * (gap_improvement : ℚ)
    let cohesion_after ← evaluate_cohesion board_after .black
    let cohesion_before ← evaluate_cohesion board_before .black
    let reward := reward + 0.04 * (cohesion_after - cohesion_before)
    let support_after ← count_supported_pieces board_after .black
    let support_before ← count_supported_pieces board_before .black
    let reward := reward + 0.02 * ((support_after - support_before : ℤ) : ℚ)
    let reward :=
      if after_counts.black_kings > before_counts.black_kings then
        let endgame_multiplier : ℚ := 1 + 1 / ((max after_counts.total 5 : ℤ) : ℚ)
        reward + 0.12 * endgame_multiplier
      else reward
    let king_risk_before ← count_threatened_kings board_before .black
    let king_risk_after ← count_threatened_kings board_after .black
    let reward := reward - 0.15 * ((king_risk_after - king_risk_before : ℤ) : ℚ)
    let reward :=
      if after_counts.black_kings < before_counts.black_kings then
        reward - 0.25 * ((before_counts.black_kings - after_counts.black_kings : ℤ) : ℚ)
      else reward
    let isolation_before ← count_isolated_pieces board_before .black
    let isolation_after ← count_isolated_pieces board_after .black
    let reward := reward - 0.05 * ((isolation_after - isolation_before : ℤ) : ℚ)
    let reward :=
      if violated_back_rank board_after .black && !violated_back_rank board_before .black then
        reward - 0.20
      else reward
    let opponent_mobility_before ← estimate_mobility board_before .red
    let opponent_mobility_after ← estimate_mobility board_after .red
    let reward := reward +
      0.01 * ((opponent_mobility_before - opponent_mobility_after : ℤ) : ℚ)
    let reward ←
      match determine_phase after_counts.total with
      | .opening => pure (reward + 0.02 * (count_back_rank_pieces board_after .black : ℚ))
      | .endgame => do
          let active_kings ← count_active_kings board_after .black
          pure (reward + 0.03 * (active_kings : ℚ))
      | .midgame => pure reward
    pure (np_clip reward (-1) 1)

/-! ## Experience store — `model/replay_buffer.py`

The two SQLite tables become lists of records in rowid (insertion) order;
`ORDER BY timestamp` becomes a stable sort on the timestamp field, and
ISO-format creation timestamps become naturals. -/

structure GameRec where
  game_id : String
  winner : String
  total_moves : ℤ
  duration_seconds : ℚ
  timestamp : ℕ
  player_color : String
deriving DecidableEq

structure TransRec where
  game_id : String
  move_number : ℤ
  board_state : BoardV
  action : ActV
  reward : ℚ
  next_state : BoardV
  done : Bool
  player : String
  priority : ℚ
  heuristic_score : ℚ
  heuristic_move : Option ActV
deriving DecidableEq

structure ReplayBuffer where
  max_games : ℕ
  games : List GameRec
  trans : List TransRec
deriving DecidableEq

/-- `_cleanup_old_games`: if the games table exceeds `max_games`, select
the `total - max_games` games with the oldest creation timestamps and
delete them from both tables. -/
def cleanup_old_games (max_games : ℕ) (games : List GameRec) (trans : List TransRec) :
    List GameRec × List TransRec :=
  let total_games := games.length
  if total_games > max_games then
    let ordered := List.insertionSort (fun a b => a.timestamp ≤ b.timestamp) games
    let old_game_ids := (ordered.take (total_games - max_games)).map (fun g => g.game_id)
    (games.filter (fun g => decide (g.game_id ∉ old_game_ids)),
     trans.filter (fun t => decide (t.game_id ∉ old_game_ids)))
  else (games, trans)

/-- `add_game`: `INSERT OR REPLACE` on the `game_id` primary key, then
`_cleanup_old_games`. -/
def add_game (rb : ReplayBuffer) (game_id winner : String) (total_moves : ℤ)
    (duration_seconds : ℚ) (timestamp : ℕ) (player_color : String) : ReplayBuffer :=
  let games1 := rb.games.filter (fun g => decide (g.game_id ≠ game_id)) ++
    [⟨game_id, winner, total_moves, duration_seconds, timestamp, player_color⟩]
  let res := cleanup_old_games rb.max_games games1 rb.trans
  { rb with games := res.1, trans := res.2 }

/-- `add_trajectory` with the Python defaults (priority 1.0, heuristic
score 0.0, no heuristic move): append one transition row. -/
def add_trajectory (rb : ReplayBuffer) (game_id : String) (move_number : ℤ)
    (board_state : BoardV) (action : ActV) (reward : ℚ) (next_state : BoardV)
    (done : Bool) (player : String) : ReplayBuffer :=
  { rb with trans := rb.trans ++
      [⟨game_id, move_number, board_state, action, reward, next_state, done, player, 1, 0, none⟩] }

/-- Foreign-key invariant of the store: every transition row references a
game present in the games table. -/
abbrev orphan_free (rb : ReplayBuffer) : Prop :=
  ∀ t ∈ rb.trans, ∃ g ∈ rb.games, g.game_id = t.game_id

/-- Python `int(x)` applied to a float: truncation toward zero. -/
def pyInt (q : ℚ) : ℤ := if q ≥ 0 then ⌊q⌋ else ⌈q⌉

/-- `get_mixed_trajectories(batch_size, recent_ratio, player)`: request
`int(batch_size * recent_ratio)` recent rows and the remainder as random
rows, concatenate, shuffle. The two SQL samplers and `random.shuffle` are
parameters (database I/O and randomness); the count arithmetic is the
code's. `recent_frac` stands for the Python parameter `recent_ratio`. -/
def get_mixed_trajectories {τ : Type} (recentFn randomFn : ℤ → List τ)
    (shuffle : List τ → List τ) (batch_size : ℤ) (recent_frac : ℚ) : List τ :=
  let recent_count := pyInt ((batch_size : ℚ) * recent_frac)
  let historical_count := batch_size - recent_count
  shuffle (recentFn recent_count ++ randomFn historical_count)

/-! ## Curriculum & exploration controller — `learning/curriculum.py` -/

/-- `AdaptiveExploration.__init__`: base 0.10. -/
def base_epsilon : ℚ := 0.10

/-- `AdaptiveExploration.__init__`: floor 0.01. -/
def min_epsilon : ℚ := 0.01

/-- `AdaptiveExploration.__init__`: cap 0.30. -/
def max_epsilon : ℚ := 0.30

/-- Performance-based adjustment of `get_epsilon` (`None` win rate keeps
the factor at 1). -/
def performance_factor (recent_win_rate : Option ℚ) : ℚ :=
  match recent_win_rate with
  | none => 1
  | some wr => if wr < 0.3 then 1.5 else if wr > 0.7 then 0.7 else 1

/-- Curriculum-based adjustment of `get_epsilon`. A falsy stage (Python
`None` or the empty string) keeps the factor at 1, which the if-chain
also gives for the empty string. -/
def curriculum_factor (curriculum_stage : Option String) : ℚ :=
  match curriculum_stage with
  | none => 1
  | some s => if s = "basic_captures" then 1.5 else if s = "mastery" then 0.6 else 1

/-- `AdaptiveExploration.get_epsilon`: time decay
`max(min_epsilon, base_epsilon * 0.995^steps)`, multiplied by the
performance and curriculum factors, clamped into
`[min_epsilon, max_epsilon]`. -/
def get_epsilon (training_steps : ℕ) (recent_win_rate : Option ℚ)
    (curriculum_stage : Option String) : ℚ :=
  let time_decay := max min_epsilon (base_epsilon * (0.995 : ℚ) ^ training_steps)
  let epsilon := time_decay * performance_factor recent_win_rate *
    curriculum_factor curriculum_stage
  max min_epsilon (min max_epsilon epsilon)

/-! ## Move-serving path — `api/ai.py 'infer_move'` -/

/-- A legal move as four parsed coordinates — the caller's `"r,c->r,c"`
string after `parse_move_string` (the interface contract of the move
request; the identity of the original string is carried by the tuple). -/
abbrev MoveCoords := ℤ × ℤ × ℤ × ℤ

/-- The encoding loop of `infer_move`: keep the moves whose `encode_move`
succeeds (`move_idx >= 0`), paired with their action index in request
order. -/
def encoded_legal_moves (legal_moves : List MoveCoords) : List (MoveCoords × ℕ) :=
  legal_moves.filterMap fun m =>
    let move_idx := encode_move m.1 m.2.1 m.2.2.1 m.2.2.2
    if move_idx ≥ 0 then some (m, move_idx.toNat) else none

/-- `sorted({idx for _, idx in encoded_moves})`: the distinct encoded
indices in increasing order. -/
def legal_move_indices (encoded : List (MoveCoords × ℕ)) : List ℕ :=
  List.insertionSort (fun a b => a ≤ b) (encoded.map (fun p => p.2)).dedup

/-- Argmax over the masked policy restricted to the legal indices, first
maximal entry winning (torch CPU `argmax` semantics). -/
def argmax_policy (policy : ℕ → ℚ) (idxs : List ℕ) : Option ℕ :=
  idxs.foldl
    (fun best i =>
      match best with
      | none => some i
      | some b => if policy i > policy b then some i else best)
    none

/-- `infer_move(req)`: encode the legal moves, fall back to the first
legal move when none encodes, mask the policy to the encoded indices and
renormalize (`/ (sum + 1e-8)`), with 10% probability pick a random
encoded move, otherwise take the best index and map it back to the first
matching move in request order (falling back to the first legal move if
no move carries it). The network's policy vector, the exploration coin
flip and the random draw are parameters. -/
def infer_move (policy : ℕ → ℚ) (explore : Bool) (rand_idx : ℕ)
    (legal_moves : List MoveCoords) : Option MoveCoords :=
  let encoded_moves := encoded_legal_moves legal_moves
  if encoded_moves.isEmpty then legal_moves.head?
  else
    let idxs := legal_move_indices encoded_moves
    let masked_sum := (idxs.map policy).sum + 1 / 100000000
    let masked_policy := fun i => policy i / masked_sum
    if explore && decide (encoded_moves.length > 1) then
      (encoded_moves.get? (rand_idx % encoded_moves.length)).map (fun p => p.1)
    else
      match argmax_policy masked_policy idxs with
      | none => legal_moves.head?
      | some best_move_idx =>
        match encoded_moves.find? (fun p => p.2 == best_move_idx) with
        | some p => some p.1
        | none => legal_moves.head?

/-! ## Game recording — `api/ai.py 'record_game'` -/

/-- One trajectory step of a result request that passes the
required-fields validation (`board_state`, `next_state`, `action`
present; `player` optional). -/
structure StepRec where
  board_state : BoardV
  next_state : BoardV
  action : ActV
  player : Option String
deriving DecidableEq

/-- The winner values `record_game` accepts verbatim. -/
def valid_winners : List String := ["ai", "human", "draw"]

/-- The `for i, step in enumerate(req.trajectory)` loop of `record_game`:
compute each reward server-side, skip any step whose processing raises
(the per-step try/except), append the rest to the store. `n` is the full
trajectory length, so `i = n - 1` marks the terminal transition. -/
def record_steps (game_id winner : String) (n : ℕ) :
    ReplayBuffer → ℕ → List StepRec → ReplayBuffer
  | rb, _, [] => rb
  | rb, i, step :: rest =>
    let is_terminal := decide (i = n - 1)
    let rb1 :=
      match calculate_reward step.board_state step.next_state step.action
          is_terminal winner with
      | none => rb
      | some reward =>
        let step_player :=
          match step.player with
          | none => "black"
          | some s => if s = "" then "black" else s
        add_trajectory rb game_id (i : ℤ) step.board_state step.action reward
          step.next_state is_terminal step_player
    record_steps game_id winner n rb1 (i + 1) rest

/-- `record_game(req)`: coerce an invalid winner to "draw", insert the
game row (`player_color` fixed to "black"), then record the trajectory
with server-side rewards. Returns the updated store and the (possibly
coerced) winner that was recorded. -/
def record_game (rb : ReplayBuffer) (game_id winner : String)
    (trajectory : List StepRec) (duration_seconds : ℚ) (timestamp : ℕ) :
    ReplayBuffer × String :=
  let w := if winner ∈ valid_winners then winner else "draw"
  let rb1 := add_game rb game_id w (trajectory.length : ℤ) duration_seconds timestamp "black"
  (record_steps game_id w trajectory.length rb1 0 trajectory, w)

/-! ## Dual-model coordinator — `learning/worker.py` -/

/-- The health check's view of one forward pass of the training network
on the synthetic input: policy vector and value head, a `none` entry
standing for NaN. -/
structure NetOutput where
  policy : List (Option ℚ)
  value : Option ℚ

/-- `_check_model_health`: reject NaN anywhere in the outputs, a policy
not summing to 1 within (0.99, 1.01), or a value outside (-1.1, 1.1). -/
def check_model_health (out : NetOutput) : Bool :=
  if out.policy.any Option.isNone || out.value.isNone then false
  else
    let policy_sum := (out.policy.map (fun x => x.getD 0)).sum
    if ¬ ((0.99 : ℚ) < policy_sum ∧ policy_sum < 1.01) then false
    else
      let v := out.value.getD 0
      if ¬ ((-1.1 : ℚ) < v ∧ v < 1.1) then false
      else true

/-- The two approximator instances of `A2CLearner`, over an abstract
parameter space `P` (the network itself is outside the spec's scope). -/
structure DualModel (P : Type) where
  model_training : P
  model_live : P

/-- `sync_models`: health-check the training instance; on failure return
`False` and leave the serving instance untouched, on success copy the
training parameters into the serving instance (`load_state_dict`) and
return `True`. `forward` runs a parameter set on the synthetic
health-check input. -/
def sync_models {P : Type} (forward : P → NetOutput) (s : DualModel P) :
    Bool × DualModel P :=
  if check_model_health (forward s.model_training) then
    (true, { s with model_live := s.model_training })
  else
    (false, s)

end Checkers

namespace Checkers

theorem list_index_lt_length {α : Type} [DecidableEq α] {l : List α} {x : α} {i : ℕ}
    (h : list_index l x = some i) : i < l.length := by
  induction l generalizing i with
  | nil => simp [list_index] at h
  | cons a rest ih =>
    by_cases hax : a = x
    · simp [list_index, hax] at h
      simp [← h]
    · simp only [list_index, if_neg hax, Option.map_eq_some'] at h
      obtain ⟨j, hj, rfl⟩ := h
      have := ih hj
      simp [List.length_cons]
      omega

theorem list_index_get? {α : Type} [DecidableEq α] {l : List α} {x : α} {i : ℕ}
    (h : list_index l x = some i) : l.get? i = some x := by
  induction l generalizing i with
  | nil => simp [list_index] at h
  | cons a rest ih =>
    by_cases hax : a = x
    · simp [list_index, hax] at h
      simp [← h, hax]
    · simp only [list_index, if_neg hax, Option.map_eq_some'] at h
      obtain ⟨j, hj, rfl⟩ := h
      simpa using ih hj

theorem list_index_isSome_of_mem {α : Type} [DecidableEq α] {l : List α} {x : α}
    (h : x ∈ l) : ∃ i, list_index l x = some i := by
  induction l with
  | nil => simp at h
  | cons a rest ih =>
    by_cases hax : a = x
    · exact ⟨0, by simp [list_index, hax]⟩
    · have hx : x ∈ rest := by
        rcases List.mem_cons.mp h with h1 | h1
        · exact absurd h1.symm hax
        · exact h1
      obtain ⟨j, hj⟩ := ih hx
      exact ⟨j + 1, by simp [list_index, hax, hj]⟩

theorem playable_squares_length : playable_squares.length = 50 := by decide

theorem mem_playable_squares {fr fc : ℤ}
    (h1 : 0 ≤ fr) (h2 : fr < 10) (h3 : 0 ≤ fc) (h4 : fc < 10)
    (h5 : (fr + fc) % 2 = 1) : (fr, fc) ∈ playable_squares := by
  interval_cases fr <;> interval_cases fc <;> revert h5 <;> decide

theorem directions8_length : directions8.length = 8 := by decide

theorem direction_index_lt {dr dc : ℤ} {d : ℕ}
    (h : direction_index dr dc = some d) : d < 8 := by
  unfold direction_index at h
  cases hh : list_index directions8 (dr, dc) with
  | some i =>
    rw [hh] at h
    cases h
    exact directions8_length ▸ list_index_lt_length hh
  | none =>
    rw [hh] at h
    exact directions8_length ▸ list_index_lt_length h

/-- Claim C1 (corrected; counterexample): the codec does NOT use the
`fromPlayableIndex * 50 + toPlayableIndex` formula and is NOT injective
over (from, to) pairs: from the playable square (1,0), the two distinct
playable landing squares (4,3) and (5,4) both encode to index 43, and 43
differs from `5 * 50 + 21` (their playable indices under the claimed
formula). -/
theorem claim_C1_cex :
    playable_index 1 0 = some 5 ∧ playable_index 4 3 = some 21 ∧
    playable_index 5 4 = some 27 ∧
    ((4 : ℤ), (3 : ℤ)) ≠ ((5 : ℤ), (4 : ℤ)) ∧
    encode_move 1 0 4 3 = encode_move 1 0 5 4 ∧
    encode_move 1 0 4 3 ≠ -1 ∧
    encode_move 1 0 4 3 ≠ 5 * 50 + 21 := by decide

/-- Claim C1 (amended): whenever two moves from the same origin square both
encode successfully, `encode_move` gives them the same index exactly when
they resolve to the same entry of the 8-direction table (so flying-king
moves sharing a direction DO collapse), and every successful index lies in
the 400-entry space `[0, 400)` = 50 playable squares x 8 directions. -/
theorem claim_C1 (fr fc t1r t1c t2r t2c : ℤ)
    (h1 : encode_move fr fc t1r t1c ≠ -1)
    (h2 : encode_move fr fc t2r t2c ≠ -1) :
    ((encode_move fr fc t1r t1c = encode_move fr fc t2r t2c) ↔
      direction_index (t1r - fr) (t1c - fc) = direction_index (t2r - fr) (t2c - fc)) ∧
    0 ≤ encode_move fr fc t1r t1c ∧ encode_move fr fc t1r t1c < 400 := by
  obtain ⟨i, hi⟩ : ∃ i, list_index playable_squares (fr, fc) = some i := by
    cases h : list_index playable_squares (fr, fc) with
    | none => exact absurd (by unfold encode_move; rw [h]) h1
    | some i => exact ⟨i, rfl⟩
  obtain ⟨d1, hd1⟩ : ∃ d, direction_index (t1r - fr) (t1c - fc) = some d := by
    cases h : direction_index (t1r - fr) (t1c - fc) with
    | none => exact absurd (by unfold encode_move; rw [hi, h]) h1
    | some d => exact ⟨d, rfl⟩
  obtain ⟨d2, hd2⟩ : ∃ d, direction_index (t2r - fr) (t2c - fc) = some d := by
    cases h : direction_index (t2r - fr) (t2c - fc) with
    | none => exact absurd (by unfold encode_move; rw [hi, h]) h2
    | some d => exact ⟨d, rfl⟩
  have e1 : encode_move fr fc t1r t1c = (i : ℤ) * 8 + (d1 : ℤ) := by
    unfold encode_move
    rw [hi, hd1]
  have e2 : encode_move fr fc t2r t2c = (i : ℤ) * 8 + (d2 : ℤ) := by
    unfold encode_move
    rw [hi, hd2]
  have hi50 : i < 50 := playable_squares_length ▸ list_index_lt_length hi
  have hb1 : d1 < 8 := direction_index_lt hd1
  rw [e1, e2, hd1, hd2]
  refine ⟨⟨fun h => ?_, fun h => ?_⟩, by omega, by omega⟩
  · have : d1 = d2 := by omega
    rw [this]
  · have : d1 = d2 := by simpa using h
    rw [this]

/-- Witness for claim C1's theorem at the concrete single-step moves
(1,0)->(2,1) and (1,0)->(3,2). -/
theorem claim_C1_wit :
    ((encode_move 1 0 2 1 = encode_move 1 0 3 2) ↔
      direction_index (2 - 1) (1 - 0) = direction_index (3 - 1) (2 - 0)) ∧
    0 ≤ encode_move 1 0 2 1 ∧ encode_move 1 0 2 1 < 400 :=
  claim_C1 1 0 2 1 3 2 (by decide) (by decide)

/-- Claim C2 (corrected; counterexample): `decode` is not a left inverse of
`encode` everywhere `encode` succeeds. The playable-to-playable flying-king
move (1,0)->(5,4) encodes successfully, but decoding the result yields the
single-step move (1,0)->(2,1), not the original landing square. -/
theorem claim_C2_cex :
    encode_move 1 0 5 4 ≠ -1 ∧
    decode_move (encode_move 1 0 5 4).toNat = some (1, 0, 2, 1) ∧
    ((1 : ℤ), (0 : ℤ), (2 : ℤ), (1 : ℤ)) ≠ ((1 : ℤ), (0 : ℤ), (5 : ℤ), (4 : ℤ)) := by
  decide

/-- Claim C2 (amended): `decode_move` inverts `encode_move` exactly on the
moves whose displacement is one of the 8 tabulated offsets (unit diagonal
steps and two-step captures): for a playable origin, an in-bounds landing
square, and a displacement in the direction table, the round trip returns
the original coordinates. Longer flying-king moves are truncated to a unit
step by the round trip (see the counterexample). -/
theorem claim_C2 (fr fc tr tc : ℤ)
    (hfr : 0 ≤ fr) (hfr' : fr < 10) (hfc : 0 ≤ fc) (hfc' : fc < 10)
    (hparity : (fr + fc) % 2 = 1)
    (htr : 0 ≤ tr) (htr' : tr < 10) (htc : 0 ≤ tc) (htc' : tc < 10)
    (hdir : (tr - fr, tc - fc) ∈ directions8) :
    encode_move fr fc tr tc ≠ -1 ∧
    decode_move (encode_move fr fc tr tc).toNat = some (fr, fc, tr, tc) := by
  have hmem := mem_playable_squares hfr hfr' hfc hfc' hparity
  obtain ⟨i, hi⟩ := list_index_isSome_of_mem hmem
  obtain ⟨d, hd⟩ := list_index_isSome_of_mem hdir
  have hdi : direction_index (tr - fr) (tc - fc) = some d := by
    unfold direction_index
    rw [hd]
  have henc : encode_move fr fc tr tc = (i : ℤ) * 8 + (d : ℤ) := by
    unfold encode_move
    rw [hi, hdi]
  have hi50 : i < 50 := playable_squares_length ▸ list_index_lt_length hi
  have hd8 : d < 8 := directions8_length ▸ list_index_lt_length hd
  have htoNat : (encode_move fr fc tr tc).toNat = i * 8 + d := by
    rw [henc]; omega
  refine ⟨by rw [henc]; omega, ?_⟩
  rw [htoNat]
  unfold decode_move
  have hdiv : (i * 8 + d) / 8 = i := by omega
  have hmod : (i * 8 + d) % 8 = d := by omega
  simp only [hdiv, hmod]
  rw [if_neg (by rw [playable_squares_length]; omega)]
  rw [list_index_get? hi, list_index_get? hd]
  show (if 0 ≤ fr + (tr - fr) ∧ fr + (tr - fr) < 10 ∧ 0 ≤ fc + (tc - fc) ∧ fc + (tc - fc) < 10 then
      some (fr, fc, fr + (tr - fr), fc + (tc - fc)) else none) = some (fr, fc, tr, tc)
  have hcond : 0 ≤ fr + (tr - fr) ∧ fr + (tr - fr) < 10 ∧
      0 ≤ fc + (tc - fc) ∧ fc + (tc - fc) < 10 := by omega
  rw [if_pos hcond]
  simp only [Option.some.injEq, Prod.mk.injEq]
  refine ⟨trivial, trivial, by omega, by omega⟩

/-- Witness for claim C2's theorem at the concrete move (1,0)->(2,1). -/
theorem claim_C2_wit :
    encode_move 1 0 2 1 ≠ -1 ∧
    decode_move (encode_move 1 0 2 1).toNat = some (1, 0, 2, 1) :=
  claim_C2 1 0 2 1 (by decide) (by decide) (by decide) (by decide) (by decide)
    (by decide) (by decide) (by decide) (by decide) (by decide)

/-- Claim C5 (confirmed): for every pair of boards (whatever their
content) and every action, `calculate_reward` with `is_terminal` true
returns exactly 1.0 when the winner is the agent ("ai"), exactly -1.0
when the winner is the opponent ("human"), and exactly 0.0 on a draw —
the terminal branch returns before any shaping term is computed. -/
theorem claim_C5 (board_before board_after : BoardV) (action : ActV) :
    calculate_reward board_before board_after action true "ai" = some 1 ∧
    calculate_reward board_before board_after action true "human" = some (-1) ∧
    calculate_reward board_before board_after action true "draw" = some 0 :=
  ⟨rfl, rfl, rfl⟩

theorem cleanup_games_le {m : ℕ} {gs : List GameRec} {ts : List TransRec}
    (h : gs.length > m) : (cleanup_old_games m gs ts).1.length ≤ m := by
  simp only [cleanup_old_games, if_pos h]
  set S := List.insertionSort (fun a b => a.timestamp ≤ b.timestamp) gs with hS
  set old_ids := (S.take (gs.length - m)).map (fun g => g.game_id) with hold
  set p : GameRec → Bool := fun g => decide (g.game_id ∉ old_ids) with hp
  have hperm : S.Perm gs := List.perm_insertionSort _ gs
  have hlen : S.length = gs.length := hperm.length_eq
  have hcount : (gs.filter p).length = List.countP p S := by
    rw [← List.countP_eq_length_filter]
    exact (hperm.countP_eq p).symm
  have hzero : List.countP p (S.take (gs.length - m)) = 0 := by
    rw [List.countP_eq_zero]
    intro g hg
    simp only [hp, hold, decide_eq_true_eq, Decidable.not_not]
    exact List.mem_map_of_mem _ hg
  have hsplit : List.countP p S =
      List.countP p (S.take (gs.length - m)) + List.countP p (S.drop (gs.length - m)) := by
    conv_lhs => rw [← List.take_append_drop (gs.length - m) S]
    exact List.countP_append _ _ _
  have hdroplen : (S.drop (gs.length - m)).length = S.length - (gs.length - m) :=
    List.length_drop _ _
  have hle : List.countP p (S.drop (gs.length - m)) ≤ (S.drop (gs.length - m)).length :=
    List.countP_le_length p
  rw [hcount, hsplit, hzero]
  omega

theorem cleanup_orphan {m : ℕ} {gs : List GameRec} {ts : List TransRec}
    (h : ∀ t ∈ ts, ∃ g ∈ gs, g.game_id = t.game_id) :
    ∀ t ∈ (cleanup_old_games m gs ts).2,
      ∃ g ∈ (cleanup_old_games m gs ts).1, g.game_id = t.game_id := by
  intro t ht
  by_cases hc : gs.length > m
  · simp only [cleanup_old_games, if_pos hc] at ht ⊢
    rw [List.mem_filter] at ht
    obtain ⟨htmem, htid⟩ := ht
    obtain ⟨g, hg, heq⟩ := h t htmem
    refine ⟨g, List.mem_filter.mpr ⟨hg, ?_⟩, heq⟩
    rw [heq]
    exact htid
  · simp only [cleanup_old_games, if_neg hc] at ht ⊢
    exact h t ht

/-- Claim C4 (confirmed): after `add_game` completes, the games table
holds at most `max_games` rows (the over-cap oldest games having been
deleted with their transitions), and the foreign-key invariant — no
stored transition references a game id absent from the games table — is
preserved (SQLite enforces no foreign key here, so the invariant is
carried as a hypothesis on the pre-state and re-established). -/
theorem claim_C4 (rb : ReplayBuffer) (game_id winner : String) (total_moves : ℤ)
    (duration_seconds : ℚ) (timestamp : ℕ) (player_color : String)
    (hinv : orphan_free rb) :
    (add_game rb game_id winner total_moves duration_seconds timestamp player_color).games.length
      ≤ rb.max_games ∧
    orphan_free (add_game rb game_id winner total_moves duration_seconds timestamp player_color) := by
  simp only [add_game, orphan_free]
  set newRec : GameRec :=
    ⟨game_id, winner, total_moves, duration_seconds, timestamp, player_color⟩ with hnew
  set games1 := rb.games.filter (fun g => decide (g.game_id ≠ game_id)) ++ [newRec] with hg1
  constructor
  · by_cases hc : games1.length > rb.max_games
    · exact cleanup_games_le hc
    · have hid : cleanup_old_games rb.max_games games1 rb.trans = (games1, rb.trans) := by
        simp only [cleanup_old_games, if_neg hc]
      rw [hid]
      show games1.length ≤ rb.max_games
      omega
  · have h1 : ∀ t ∈ rb.trans, ∃ g ∈ games1, g.game_id = t.game_id := by
      intro t ht
      obtain ⟨g, hg, heq⟩ := hinv t ht
      by_cases hgid : g.game_id = game_id
      · refine ⟨newRec, List.mem_append_right _ (List.mem_singleton_self _), ?_⟩
        rw [hnew]
        rw [← hgid]
        exact heq
      · exact ⟨g, List.mem_append_left _ (List.mem_filter.mpr ⟨hg, by simp [hgid]⟩), heq⟩
    exact cleanup_orphan h1

/-- Witness for claim C4's theorem: a store capped at 1 game holding one
game and its transition; recording a second, newer game evicts the old
game together with its transition. -/
theorem claim_C4_wit :
    (add_game ⟨1, [⟨"g0", "ai", 1, 0, 0, "black"⟩],
        [⟨"g0", 0, BoardV.bother, ⟨(0, 0), (1, 1)⟩, 0, BoardV.bother, true, "black", 1, 0, none⟩]⟩
      "g1" "draw" 0 0 1 "black").games.length ≤ 1 ∧
    orphan_free (add_game ⟨1, [⟨"g0", "ai", 1, 0, 0, "black"⟩],
        [⟨"g0", 0, BoardV.bother, ⟨(0, 0), (1, 1)⟩, 0, BoardV.bother, true, "black", 1, 0, none⟩]⟩
      "g1" "draw" 0 0 1 "black") :=
  claim_C4 ⟨1, [⟨"g0", "ai", 1, 0, 0, "black"⟩],
      [⟨"g0", 0, BoardV.bother, ⟨(0, 0), (1, 1)⟩, 0, BoardV.bother, true, "black", 1, 0, none⟩]⟩
    "g1" "draw" 0 0 1 "black" (by decide)

/-- Claim C6 (code_bug): `calculate_reward` is NOT total on malformed
boards. For `board_before = [5, 6]` (a board whose rows are ints, i.e.
non-list rows — a case the claim says is tolerated), the gap-closure
sub-metric evaluates `len(board[0])` without an isinstance guard and
raises `TypeError`, aborting the reward computation (`none`); the
best-effort census `_count_pieces` itself handles the same board fine
(second conjunct), which shows the crash contradicts the code's own
defensive intent. -/
theorem claim_C6 :
    calculate_reward (BoardV.blist [RowV.rother, RowV.rother]) (BoardV.blist [])
      ⟨(0, 0), (1, 1)⟩ false "ai" = none ∧
    count_pieces (BoardV.blist [RowV.rother, RowV.rother]) = ⟨0, 0, 0, 0, 0, 0⟩ :=
  ⟨rfl, rfl⟩

/-- Claim C7 (corrected; counterexample): the recent-transition request
count is `int(batchSize * recentRatio)` — truncation — not
`round(batchSize * recentRatio)`: with batchSize 10 and ratio 0.75 the
code requests 7 recent and 3 random candidates, where the claimed
rounding would request 8. (At this input the Python float product 7.5 is
exact, so the rational model agrees with the code bit for bit.) -/
theorem claim_C7_cex :
    (get_mixed_trajectories (fun n => List.replicate n.toNat true)
        (fun n => List.replicate n.toNat false) id 10 0.75).count true = 7 ∧
    (get_mixed_trajectories (fun n => List.replicate n.toNat true)
        (fun n => List.replicate n.toNat false) id 10 0.75).count false = 3 ∧
    round ((10 : ℚ) * 0.75) = 8 := by
  have h1 : pyInt (((10 : ℤ) : ℚ) * 0.75) = 7 := by
    unfold pyInt
    rw [if_pos (by norm_num)]
    rw [Int.floor_eq_iff]
    norm_num
  refine ⟨?_, ?_, ?_⟩
  · simp only [get_mixed_trajectories, h1]
    decide
  · simp only [get_mixed_trajectories, h1]
    decide
  · rw [round_eq, Int.floor_eq_iff]
    norm_num

/-- Claim C7 (amended): `get_mixed_trajectories` requests
`int(batchSize * recentRatio)` (truncation toward zero) recent
transitions plus the remainder as random transitions, then concatenates
and shuffles; with batchSize 50 and recentRatio 0.8 it requests exactly
40 recent and 10 random candidates before shuffling, whatever the
samplers return and however the shuffle permutes. -/
theorem claim_C7 {τ : Type} (recentFn randomFn : ℤ → List τ)
    (shuffle : List τ → List τ) :
    get_mixed_trajectories recentFn randomFn shuffle 50 0.8 =
      shuffle (recentFn 40 ++ randomFn 10) := by
  have h : pyInt (((50 : ℤ) : ℚ) * 0.8) = 40 := by
    unfold pyInt
    rw [if_pos (by norm_num)]
    rw [Int.floor_eq_iff]
    norm_num
  simp only [get_mixed_trajectories, h]
  norm_num

/-- Claim C8 (confirmed): holding the recent win rate and curriculum
stage fixed, `get_epsilon` is monotonically non-increasing in the
training-step count, and its value always lies within
`[min_epsilon, max_epsilon]`. -/
theorem claim_C8 (steps1 steps2 : ℕ) (recent_win_rate : Option ℚ)
    (curriculum_stage : Option String) (h : steps1 ≤ steps2) :
    get_epsilon steps2 recent_win_rate curriculum_stage ≤
      get_epsilon steps1 recent_win_rate curriculum_stage ∧
    min_epsilon ≤ get_epsilon steps2 recent_win_rate curriculum_stage ∧
    get_epsilon steps2 recent_win_rate curriculum_stage ≤ max_epsilon := by
  have hpf : 0 ≤ performance_factor recent_win_rate := by
    rcases recent_win_rate with _ | wr
    · norm_num [performance_factor]
    · simp only [performance_factor]
      split_ifs <;> norm_num
  have hcf : 0 ≤ curriculum_factor curriculum_stage := by
    rcases curriculum_stage with _ | s
    · norm_num [curriculum_factor]
    · simp only [curriculum_factor]
      split_ifs <;> norm_num
  refine ⟨?_, ?_, ?_⟩
  · unfold get_epsilon
    have hpow : (0.995 : ℚ) ^ steps2 ≤ (0.995 : ℚ) ^ steps1 :=
      pow_le_pow_of_le_one (by norm_num) (by norm_num) h
    have htd : max min_epsilon (base_epsilon * (0.995 : ℚ) ^ steps2) ≤
        max min_epsilon (base_epsilon * (0.995 : ℚ) ^ steps1) :=
      max_le_max (le_refl _)
        (mul_le_mul_of_nonneg_left hpow (by norm_num [base_epsilon]))
    have heps : max min_epsilon (base_epsilon * (0.995 : ℚ) ^ steps2) *
          performance_factor recent_win_rate * curriculum_factor curriculum_stage ≤
        max min_epsilon (base_epsilon * (0.995 : ℚ) ^ steps1) *
          performance_factor recent_win_rate * curriculum_factor curriculum_stage := by
      apply mul_le_mul_of_nonneg_right _ hcf
      exact mul_le_mul_of_nonneg_right htd hpf
    exact max_le_max (le_refl _) (min_le_min (le_refl _) heps)
  · exact le_max_left _ _
  · unfold get_epsilon
    apply max_le
    · norm_num [min_epsilon, max_epsilon]
    · exact min_le_left _ _

/-- Witness for claim C8's theorem at steps 0 and 3 with an empty win
rate and no stage. -/
theorem claim_C8_wit :
    get_epsilon 3 none none ≤ get_epsilon 0 none none ∧
    min_epsilon ≤ get_epsilon 3 none none ∧
    get_epsilon 3 none none ≤ max_epsilon :=
  claim_C8 0 3 none none (by norm_num)

theorem mem_of_encoded_legal_moves {legal_moves : List MoveCoords}
    {p : MoveCoords × ℕ} (h : p ∈ encoded_legal_moves legal_moves) :
    p.1 ∈ legal_moves := by
  unfold encoded_legal_moves at h
  rw [List.mem_filterMap] at h
  obtain ⟨a, ha, hfa⟩ := h
  have hfa' : (if encode_move a.1 a.2.1 a.2.2.1 a.2.2.2 ≥ 0 then
      some (a, (encode_move a.1 a.2.1 a.2.2.1 a.2.2.2).toNat) else none) = some p := hfa
  split_ifs at hfa'
  cases hfa'
  exact ha

/-- Claim C9 (confirmed): whenever the caller's legal-move list is
non-empty, `infer_move` returns one of the caller's legal moves, for
every policy output, exploration draw and random index: encoding
failures (no legal move encodes, or the selected index maps to no move)
are recovered by falling back to the first legal move in the caller's
list, never by surfacing an error. -/
theorem claim_C9 (policy : ℕ → ℚ) (explore : Bool) (rand_idx : ℕ)
    (legal_moves : List MoveCoords) (h : legal_moves ≠ []) :
    ∃ m ∈ legal_moves, infer_move policy explore rand_idx legal_moves = some m := by
  have hhead : legal_moves.head? = some (legal_moves.head h) := List.head?_eq_head h
  have hheadmem : legal_moves.head h ∈ legal_moves := List.head_mem h
  simp only [infer_move]
  by_cases he : (encoded_legal_moves legal_moves).isEmpty
  · rw [if_pos he]
    exact ⟨_, hheadmem, hhead⟩
  · rw [if_neg he]
    by_cases hex : explore && decide ((encoded_legal_moves legal_moves).length > 1)
    · rw [if_pos hex]
      have hlen : 0 < (encoded_legal_moves legal_moves).length := by
        cases hL : encoded_legal_moves legal_moves with
        | nil => rw [hL] at he; simp at he
        | cons a t => simp [hL]
      have hmod : rand_idx % (encoded_legal_moves legal_moves).length <
          (encoded_legal_moves legal_moves).length := Nat.mod_lt _ hlen
      rw [List.get?_eq_get hmod]
      refine ⟨((encoded_legal_moves legal_moves).get ⟨_, hmod⟩).1, ?_, rfl⟩
      exact mem_of_encoded_legal_moves (List.get_mem _ _ _)
    · rw [if_neg hex]
      cases ham : argmax_policy
          (fun i => policy i /
            (((legal_move_indices (encoded_legal_moves legal_moves)).map policy).sum
              + 1 / 100000000))
          (legal_move_indices (encoded_legal_moves legal_moves)) with
      | none => exact ⟨_, hheadmem, hhead⟩
      | some best_move_idx =>
        show ∃ m ∈ legal_moves,
          (match (encoded_legal_moves legal_moves).find?
              (fun p => p.2 == best_move_idx) with
            | some p => some p.1
            | none => legal_moves.head?) = some m
        cases hf : (encoded_legal_moves legal_moves).find?
            (fun p => p.2 == best_move_idx) with
        | none => exact ⟨_, hheadmem, hhead⟩
        | some p =>
          exact ⟨p.1,
            mem_of_encoded_legal_moves (List.mem_of_find?_eq_some hf), rfl⟩

/-- Witness for claim C9's theorem: a single legal move (1,0)->(2,1)
under the constant-zero policy without exploration. -/
theorem claim_C9_wit :
    ∃ m ∈ [((1 : ℤ), (0 : ℤ), (2 : ℤ), (1 : ℤ))],
      infer_move (fun _ => 0) false 0 [(1, 0, 2, 1)] = some m :=
  claim_C9 (fun _ => 0) false 0 [(1, 0, 2, 1)] (by simp)

theorem record_steps_games (game_id winner : String) (n : ℕ) :
    ∀ (steps : List StepRec) (rb : ReplayBuffer) (i : ℕ),
      (record_steps game_id winner n rb i steps).games = rb.games := by
  intro steps
  induction steps with
  | nil => intro rb i; rfl
  | cons s rest ih =>
    intro rb i
    simp only [record_steps]
    rw [ih]
    cases calculate_reward s.board_state s.next_state s.action (decide (i = n - 1)) winner with
    | none => rfl
    | some r => rfl

theorem record_steps_last (game_id winner : String) (n : ℕ)
    (hw : ∀ (bb ba : BoardV) (a : ActV),
      calculate_reward bb ba a true winner = some 0) :
    ∀ (steps : List StepRec) (rb : ReplayBuffer) (i : ℕ),
      steps ≠ [] → i + steps.length = n →
      ∃ t, (record_steps game_id winner n rb i steps).trans.getLast? = some t ∧
        t.game_id = game_id ∧ t.reward = 0 ∧ t.done = true := by
  intro steps
  induction steps with
  | nil => intro rb i hne; exact absurd rfl hne
  | cons s rest ih =>
    intro rb i _ hlen
    cases rest with
    | nil =>
      have hterm : decide (i = n - 1) = true := by
        simp only [List.length_cons, List.length_nil] at hlen
        simp only [decide_eq_true_eq]
        omega
      simp only [record_steps, hterm, hw, add_trajectory]
      exact ⟨_, List.getLast?_concat _, rfl, rfl, rfl⟩
    | cons s2 rest2 =>
      apply ih _ (i + 1)
      · simp
      · simp only [List.length_cons] at hlen ⊢
        omega

theorem cleanup_games_subset {m : ℕ} {gs : List GameRec} {ts : List TransRec}
    {g : GameRec} (h : g ∈ (cleanup_old_games m gs ts).1) : g ∈ gs := by
  by_cases hc : gs.length > m
  · simp only [cleanup_old_games, if_pos hc] at h
    exact (List.mem_filter.mp h).1
  · simp only [cleanup_old_games, if_neg hc] at h
    exact h

/-- Claim C10 (confirmed): `record_game` accepts any winner string: an
outcome not in {"ai", "human", "draw"} is coerced to "draw" before the
game row is stored and before trajectory rewards are computed, so the
recorded game (if still present after eviction) carries winner "draw"
and the trajectory's terminal transition is stored with reward exactly
0.0 instead of the request being rejected. -/
theorem claim_C10 (rb : ReplayBuffer) (game_id winner : String)
    (trajectory : List StepRec) (duration_seconds : ℚ) (timestamp : ℕ)
    (hw : winner ∉ valid_winners) (htraj : trajectory ≠ []) :
    (record_game rb game_id winner trajectory duration_seconds timestamp).2 = "draw" ∧
    (∀ g ∈ (record_game rb game_id winner trajectory duration_seconds timestamp).1.games,
      g.game_id = game_id → g.winner = "draw") ∧
    (∃ t, (record_game rb game_id winner trajectory duration_seconds
        timestamp).1.trans.getLast? = some t ∧
      t.game_id = game_id ∧ t.reward = 0 ∧ t.done = true) := by
  simp only [record_game, if_neg hw]
  refine ⟨by trivial, ?_, ?_⟩
  · intro g hg hgid
    rw [record_steps_games] at hg
    simp only [add_game] at hg
    have hg1 := cleanup_games_subset hg
    rcases List.mem_append.mp hg1 with hfil | hnew
    · have := (List.mem_filter.mp hfil).2
      simp only [decide_eq_true_eq] at this
      exact absurd hgid this
    · rw [List.mem_singleton.mp hnew]
  · exact record_steps_last game_id "draw" trajectory.length
      (fun _ _ _ => rfl) trajectory _ 0 htraj (by simp)

/-- Witness for claim C10's theorem: recording a one-step game with the
invalid outcome "bogus" into an empty store. -/
theorem claim_C10_wit :
    (record_game ⟨10, [], []⟩ "g" "bogus"
        [⟨BoardV.bother, BoardV.bother, ⟨(0, 0), (1, 1)⟩, none⟩] 0 0).2 = "draw" ∧
    (∀ g ∈ (record_game ⟨10, [], []⟩ "g" "bogus"
        [⟨BoardV.bother, BoardV.bother, ⟨(0, 0), (1, 1)⟩, none⟩] 0 0).1.games,
      g.game_id = "g" → g.winner = "draw") ∧
    (∃ t, (record_game ⟨10, [], []⟩ "g" "bogus"
        [⟨BoardV.bother, BoardV.bother, ⟨(0, 0), (1, 1)⟩, none⟩] 0 0).1.trans.getLast?
          = some t ∧ t.game_id = "g" ∧ t.reward = 0 ∧ t.done = true) :=
  claim_C10 ⟨10, [], []⟩ "g" "bogus"
    [⟨BoardV.bother, BoardV.bother, ⟨(0, 0), (1, 1)⟩, none⟩] 0 0
    (by decide) (by simp)

/-- Claim C3 (confirmed): whenever the health check on the training
instance fails, `sync_models` reports failure and the whole learner
state — in particular every parameter of the serving instance — is left
unchanged; the serving parameters are overwritten with the training
parameters exactly when the health check (no NaN, policy sum within
tolerance of 1, value in the bounded range) passes. -/
theorem claim_C3 {P : Type} (forward : P → NetOutput) (s : DualModel P) :
    (check_model_health (forward s.model_training) = false →
      sync_models forward s = (false, s) ∧
      (sync_models forward s).2.model_live = s.model_live) ∧
    (check_model_health (forward s.model_training) = true →
      (sync_models forward s).1 = true ∧
      (sync_models forward s).2.model_live = s.model_training) := by
  constructor
  · intro h
    simp [sync_models, h]
  · intro h
    simp [sync_models, h]

/-- Witness for claim C3's theorem: a forward pass with a NaN policy
entry fails the check and leaves the serving parameters (5) untouched; a
healthy forward pass (policy summing to 1, value 0) syncs the training
parameters (2) into the serving slot. -/
theorem claim_C3_wit :
    (sync_models (fun _ => ⟨[none], some 0⟩) (⟨2, 5⟩ : DualModel ℚ) = (false, ⟨2, 5⟩) ∧
      (sync_models (fun _ => ⟨[none], some 0⟩) (⟨2, 5⟩ : DualModel ℚ)).2.model_live = 5) ∧
    ((sync_models (fun _ => ⟨[some 1], some 0⟩) (⟨2, 5⟩ : DualModel ℚ)).1 = true ∧
      (sync_models (fun _ => ⟨[some 1], some 0⟩) (⟨2, 5⟩ : DualModel ℚ)).2.model_live = 2) :=
  ⟨(claim_C3 (fun _ => ⟨[none], some 0⟩) ⟨2, 5⟩).1 rfl,
   (claim_C3 (fun _ => ⟨[some 1], some 0⟩) ⟨2, 5⟩).2
     (by norm_num [check_model_health])⟩

end Checkers
